import Mathlib

/-!
Shallow embedding of the interval reconciliation core of `src/index.tsx`
(a React Native time-tracking app).  Pure helpers are translated directly;
the stateful `App` handlers are translated as functions on an explicit
`AppState` record (entry list, split list, id counter).  JS numbers that
only ever hold nonnegative integers are modelled as `Nat`; the mutable
module-level `NEXT_ID` counter is threaded explicitly.
-/

/-- `Eintrag` (src/index.tsx lines 17-22): one persisted time entry.
`ende = none` models an absent `ende` field (an open interval). -/
structure Eintrag where
  id : Nat
  date : String
  start : String
  ende : Option String
deriving Repr, DecidableEq

/-- `SplitEntry` (lines 24-28): the link record of a midnight split pair. -/
structure SplitEntry where
  id : String
  firstId : Nat
  secondId : Nat
deriving Repr, DecidableEq

/-- `EditMode` (line 30). -/
inductive EditMode where
  | noneMode
  | start
  | ende
deriving Repr, DecidableEq

/-- `OpenEntryInfo` (lines 32-35). -/
structure OpenEntryInfo where
  hasOpen : Bool
  id : Option Nat
deriving Repr, DecidableEq

/-- `generateId` (lines 44-48): `NEXT_ID += 1; return NEXT_ID`.  The global
counter is passed and returned explicitly: result is (new id, new counter). -/
def generateId (ctr : Nat) : Nat × Nat :=
  (ctr + 1, ctr + 1)

/-- `s.split(sep)` for a one-character separator, on the character list of
the string (structurally recursive so that concrete inputs evaluate). -/
def splitOnChar (sep : Char) : List Char → List (List Char)
  | [] => [[]]
  | c :: rest =>
    let r := splitOnChar sep rest
    if c == sep then [] :: r
    else
      match r with
      | [] => [[c]]
      | h :: t => (c :: h) :: t

/-- `Number(s)` on the substrings produced by splitting: the numeric value
of an all-digit string.  A non-numeric string gives `NaN` in JS; the NaN
case is modelled as 0 (it is unreachable for the well-formed `"HH:MM"` /
`"YYYY-MM-DD"` data this program stores). -/
def parseNatChars (l : List Char) : Nat :=
  if !l.isEmpty && l.all (fun c => c.isDigit) then
    l.foldl (fun n c => n * 10 + (c.toNat - 48)) 0
  else 0

/-- `timeToMinutes` (lines 69-72): `const [h, m] = time.split(':').map(Number);
return h * 60 + m;` (destructuring takes the first two pieces). -/
def timeToMinutes (time : String) : Nat :=
  let parts := splitOnChar ':' time.data
  parseNatChars (parts.getD 0 []) * 60 + parseNatChars (parts.getD 1 [])

/-- `String(n).padStart(2, '0')` for the two-digit fields produced here. -/
def padStart2 (n : Nat) : String :=
  if n < 10 then "0" ++ toString n else toString n

/-- `minutesToTime` (lines 74-80).  `Math.max(0, Math.min(totalIn, 23*60+55))`
is `(min totalIn 1435).toNat` (`Int.toNat` clamps negatives to 0).  For an
integer `total ≥ 0`, `Math.round(total / 5)` equals `(2 * total + 5) / 10`
in truncating natural division (round half up; halves cannot occur for an
integer argument divided by 5, so nearest-with-ties-up coincides). -/
def minutesToTime (totalIn : Int) : String :=
  let total : Nat := (min totalIn (23 * 60 + 55)).toNat
  let rounded := (2 * total + 5) / 10 * 5
  let h := rounded / 60
  let m := rounded % 60
  padStart2 h ++ ":" ++ padStart2 m

/-- The end-of-interval minute value with the `"24:00"` sentinel mapped to
1440.  Both `getDurationMinutes` (line 105) and `createEntriesWithOptionalSplit`
(lines 191-193) compute `timeToMinutes(ende)` and then overwrite it with
`24 * 60` when `ende === '24:00'`; since the overwrite wins, the two-step
assignment is folded into one conditional here. -/
def sentinelEndMinutes (ende : String) : Nat :=
  if ende == "24:00" then 24 * 60 else timeToMinutes ende

/-- `getDurationMinutes` (lines 101-107).  `Math.max(0, endMin - startMin)`
over JS numbers is truncating subtraction over `Nat`. -/
def getDurationMinutes (start : String) (ende : Option String) : Nat :=
  match ende with
  | none => 0
  | some e => sentinelEndMinutes e - timeToMinutes start

/-- `getDuration` (lines 109-116). -/
def getDuration (start : String) (ende : Option String) : String :=
  match ende with
  | none => "-"
  | some e =>
    let diffMinutes := getDurationMinutes start (some e)
    if diffMinutes ≤ 0 then "-"
    else padStart2 (diffMinutes / 60) ++ ":" ++ padStart2 (diffMinutes % 60)

/-- Gregorian leap year, as implemented by the JS `Date` calendar. -/
def isLeapYear (y : Nat) : Bool :=
  (y % 4 == 0 && y % 100 != 0) || y % 400 == 0

/-- Length of month `m` of year `y` in the JS `Date` calendar. -/
def daysInMonth (y m : Nat) : Nat :=
  if m == 2 then (if isLeapYear y then 29 else 28)
  else if m == 4 || m == 6 || m == 9 || m == 11 then 30
  else 31

/-- One calendar-day step on a (year, month, day) triple; iterating this
models `date.setDate(date.getDate() + n)` rolling over months and years. -/
def nextDayYMD : Nat × Nat × Nat → Nat × Nat × Nat
  | (y, m, d) =>
    if d < daysInMonth y m then (y, m, d + 1)
    else if m < 12 then (y, m + 1, 1)
    else (y + 1, 1, 1)

/-- Four-digit year rendering used by `toISOString()`. -/
def padStart4 (n : Nat) : String :=
  if n < 10 then "000" ++ toString n
  else if n < 100 then "00" ++ toString n
  else if n < 1000 then "0" ++ toString n
  else toString n

/-- Parse a `"YYYY-MM-DD"` string into (year, month, day). -/
def parseYMD (s : String) : Nat × Nat × Nat :=
  match splitOnChar '-' s.data with
  | [y, m, d] => (parseNatChars y, parseNatChars m, parseNatChars d)
  | _ => (1970, 1, 1)

/-- Render a (year, month, day) triple as `"YYYY-MM-DD"`. -/
def formatYMD : Nat × Nat × Nat → String
  | (y, m, d) => padStart4 y ++ "-" ++ padStart2 m ++ "-" ++ padStart2 d

/-- `new Date(dateStr + 'T00:00:00'); date.setDate(date.getDate() + n);
date.toISOString().split('T')[0]` — the date arithmetic used by
`getNextDay` (lines 82-86, n = 1) and `getAdjustedDateForEntry`
(lines 92-95, n = 2), modelled as pure calendar-day addition (the
wall-clock/UTC distinction is out of the embedding's scope). -/
def addDaysStr (s : String) (n : Nat) : String :=
  formatYMD (nextDayYMD^[n] (parseYMD s))

/-- `getAdjustedDateForEntry` (lines 88-99): the display/grouping date.
The split lookup is `splits.find(s => s.firstId === entry.id ||
s.secondId === entry.id)`; the second half of a pair shifts **its own**
stored `entry.date` two days forward. -/
def getAdjustedDateForEntry (entry : Eintrag) (splits : List SplitEntry) : String :=
  match splits.find? (fun s => s.firstId == entry.id || s.secondId == entry.id) with
  | none => entry.date
  | some split =>
    if split.secondId == entry.id then addDaysStr entry.date 2
    else entry.date

/-- `openEntries[openEntries.length - 1]` (line 137): last element. -/
def lastElem? : List Eintrag → Option Eintrag
  | [] => none
  | [a] => some a
  | _ :: b :: t => lastElem? (b :: t)

/-- `getOpenEntryInfo` (lines 127-143): the open-entry lookup.  `!e.ende`
on an optional field is `Option.isNone` here. -/
def getOpenEntryInfo (eintraege : List Eintrag) : OpenEntryInfo :=
  let openEntries := eintraege.filter (fun e2 => e2.ende.isNone)
  match lastElem? openEntries with
  | none => { hasOpen := false, id := none }
  | some lastOpen => { hasOpen := true, id := some lastOpen.id }

/-- Result record of `createEntriesWithOptionalSplit`: 1 or 2 entries and
an optional split link. -/
structure SplitResult where
  entries : List Eintrag
  split : Option SplitEntry
deriving Repr, DecidableEq

/-- `createEntriesWithOptionalSplit` (lines 185-225), with the global id
counter threaded explicitly (second component of argument and result).
`nextDate` is `base.date` in the source (line 201: the stored date of the
second half is not advanced). -/
def createEntriesWithOptionalSplit (ctr : Nat) (base : Eintrag) : SplitResult × Nat :=
  match base.ende with
  | none => ({ entries := [base], split := none }, ctr)
  | some e =>
    let startMin := timeToMinutes base.start
    let endMin := sentinelEndMinutes e
    if endMin ≥ startMin ∧ endMin ≤ 24 * 60 then
      ({ entries := [base], split := none }, ctr)
    else
      let g1 := generateId ctr
      let g2 := generateId g1.2
      let nextDate := base.date
      let first : Eintrag := { id := g1.1, date := base.date, start := base.start, ende := some "24:00" }
      let second : Eintrag := { id := g2.1, date := nextDate, start := "00:00", ende := some e }
      ({ entries := [first, second],
         split := some { id := toString g1.1 ++ "-" ++ toString g2.1, firstId := g1.1, secondId := g2.1 } },
       g2.2)

/-- `buildBaseFromSplit` (lines 228-238), counter threaded explicitly. -/
def buildBaseFromSplit (ctr : Nat) (first second : Eintrag) : Eintrag × Nat :=
  let g := generateId ctr
  ({ id := g.1, date := first.date, start := first.start, ende := second.ende }, g.2)

/-- The App component's state relevant to the reconciliation core:
the `eintraege` and `splits` React state plus the `NEXT_ID` counter. -/
structure AppState where
  eintraege : List Eintrag
  splits : List SplitEntry
  nextId : Nat
deriving Repr, DecidableEq

/-- Insertion step for the stable descending-by-id sort performed by
`[...xs].sort((a, b) => b.id - a.id)`. -/
def insertDesc (x : Eintrag) : List Eintrag → List Eintrag
  | [] => [x]
  | y :: ys => if y.id ≤ x.id then x :: y :: ys else y :: insertDesc x ys

/-- Stable sort descending by `id`, as used in `loadData` (line 415) and
`updateEintraege` (line 423). -/
def sortDesc : List Eintrag → List Eintrag
  | [] => []
  | x :: xs => insertDesc x (sortDesc xs)

/-- `updateEintraege` (lines 422-426): every replacement of the entry
collection is sorted descending by id (persistence is fire-and-forget and
not modelled). -/
def updateEintraege (l : List Eintrag) : List Eintrag :=
  sortDesc l

/-- `handleAddEnde` (lines 501-530): close the open entry found by
`getOpenEntryInfo`, run the splitter on it, drop any split referencing the
closed id and append the new split if produced.  `currentTime` stands for
`getRoundedNow()` (wall clock, external to the embedding). -/
def handleAddEnde (st : AppState) (currentTime : String) : AppState :=
  let info := getOpenEntryInfo st.eintraege
  match info.id with
  | none => st
  | some oid =>
    if info.hasOpen = false then st
    else
      match st.eintraege.find? (fun e2 => e2.id == oid) with
      | none => st
      | some openEntry =>
        let base : Eintrag := { openEntry with ende := some currentTime }
        let rc := createEntriesWithOptionalSplit st.nextId base
        let newEintraege :=
          st.eintraege.filter (fun e2 => e2.id != openEntry.id) ++ rc.1.entries
        let newSplits :=
          st.splits.filter (fun s => s.firstId != openEntry.id && s.secondId != openEntry.id)
            ++ rc.1.split.toList
        { eintraege := updateEintraege newEintraege, splits := newSplits, nextId := rc.2 }

/-- `handleAddFixedNoonEntry` (lines 532-557): the confirmed `onPress`
action.  It appends one hardcoded `12:00`–`12:00` entry for the given date
directly (no splitter call, `splits` untouched). -/
def handleAddFixedNoonEntry (st : AppState) (date : String) : AppState :=
  let g := generateId st.nextId
  let newEintrag : Eintrag := { id := g.1, date := date, start := "12:00", ende := some "12:00" }
  { eintraege := updateEintraege (st.eintraege ++ [newEintrag]),
    splits := st.splits, nextId := g.2 }

/-- Field application inside `handleSaveEdit`: `if (editMode === 'start')
base.start = editingStart; else base.ende = editingEnde;` (the `else`
branch covers both `'ende'` and `'none'`, as in the source). -/
def applyEdit (base : Eintrag) (editMode : EditMode) (editingStart editingEnde : String) : Eintrag :=
  if editMode = EditMode.start then { base with start := editingStart }
  else { base with ende := some editingEnde }

/-- `handleSaveEdit` lines 616-641: both halves of the split are present —
remove both and the pair, rebuild the merged base, apply the edit, re-split. -/
def saveEditMergedBranch (st : AppState) (existingSplit : SplitEntry)
    (first second : Eintrag) (editMode : EditMode)
    (editingStart editingEnde : String) : AppState :=
  let newEintraege :=
    st.eintraege.filter (fun e2 => e2.id != existingSplit.firstId && e2.id != existingSplit.secondId)
  let newSplits := st.splits.filter (fun s => s.id != existingSplit.id)
  let bc := buildBaseFromSplit st.nextId first second
  let base := applyEdit bc.1 editMode editingStart editingEnde
  let rc := createEntriesWithOptionalSplit bc.2 base
  { eintraege := updateEintraege (newEintraege ++ rc.1.entries),
    splits := newSplits ++ rc.1.split.toList, nextId := rc.2 }

/-- `handleSaveEdit` lines 588-614: a half of the found split is missing —
fall back to editing only the found record, still dropping the stale pair. -/
def saveEditFallbackBranch (st : AppState) (original : Eintrag)
    (existingSplit : SplitEntry) (editMode : EditMode)
    (editingStart editingEnde : String) : AppState :=
  let newEintraege := st.eintraege.filter (fun e2 => e2.id != original.id)
  let newSplits := st.splits.filter (fun s => s.id != existingSplit.id)
  let g := generateId st.nextId
  let base := applyEdit { original with id := g.1 } editMode editingStart editingEnde
  let rc := createEntriesWithOptionalSplit g.2 base
  { eintraege := updateEintraege (newEintraege ++ rc.1.entries),
    splits := newSplits ++ rc.1.split.toList, nextId := rc.2 }

/-- `handleSaveEdit` lines 644-668: the edited entry is in no split —
clone with a fresh id, apply the edit, re-split. -/
def saveEditNoSplitBranch (st : AppState) (original : Eintrag) (editMode : EditMode)
    (editingStart editingEnde : String) : AppState :=
  let newEintraege := st.eintraege.filter (fun e2 => e2.id != original.id)
  let g := generateId st.nextId
  let base := applyEdit { original with id := g.1 } editMode editingStart editingEnde
  let rc := createEntriesWithOptionalSplit g.2 base
  { eintraege := updateEintraege (newEintraege ++ rc.1.entries),
    splits := st.splits ++ rc.1.split.toList, nextId := rc.2 }

/-- `handleSaveEdit` (lines 559-669).  `if (!editingEntryId) return`
no-ops on `null` and (by JS falsiness) on id `0`; empty-value validation
aborts before any mutation; an unknown id only resets the edit UI state. -/
def handleSaveEdit (st : AppState) (editingEntryId : Option Nat) (editMode : EditMode)
    (editingStart editingEnde : String) : AppState :=
  match editingEntryId with
  | none => st
  | some eid =>
    if eid = 0 then st
    else if editMode = EditMode.start ∧ editingStart = "" then st
    else if editMode = EditMode.ende ∧ editingEnde = "" then st
    else
      match st.eintraege.find? (fun e2 => e2.id == eid) with
      | none => st
      | some original =>
        match st.splits.find? (fun s => s.firstId == original.id || s.secondId == original.id) with
        | some existingSplit =>
          match st.eintraege.find? (fun e2 => e2.id == existingSplit.firstId),
                st.eintraege.find? (fun e2 => e2.id == existingSplit.secondId) with
          | some first, some second =>
            saveEditMergedBranch st existingSplit first second editMode editingStart editingEnde
          | some _, none =>
            saveEditFallbackBranch st original existingSplit editMode editingStart editingEnde
          | none, _ =>
            saveEditFallbackBranch st original existingSplit editMode editingStart editingEnde
        | none =>
          saveEditNoSplitBranch st original editMode editingStart editingEnde

/-- `handleDeleteEntry` (lines 682-717): the confirmed `onPress` action.
If a split references the id, both member entries and the pair go in one
step; otherwise only the matching record goes and `splits` is untouched. -/
def handleDeleteEntry (st : AppState) (id : Nat) : AppState :=
  match st.splits.find? (fun s => s.firstId == id || s.secondId == id) with
  | some relatedSplit =>
    { eintraege := updateEintraege (st.eintraege.filter
        (fun e2 => e2.id != relatedSplit.firstId && e2.id != relatedSplit.secondId)),
      splits := st.splits.filter (fun s => s.id != relatedSplit.id),
      nextId := st.nextId }
  | none =>
    { eintraege := updateEintraege (st.eintraege.filter (fun e2 => e2.id != id)),
      splits := st.splits,
      nextId := st.nextId }

/-! ### Helper lemmas about the sort and list operations -/

theorem mem_insertDesc {a x : Eintrag} {l : List Eintrag} :
    a ∈ insertDesc x l ↔ a = x ∨ a ∈ l := by
  induction l with
  | nil => simp [insertDesc]
  | cons y ys ih =>
    by_cases h : y.id ≤ x.id
    · simp [insertDesc, h]
    · simp [insertDesc, h, ih]
      tauto

theorem mem_sortDesc {a : Eintrag} {l : List Eintrag} :
    a ∈ sortDesc l ↔ a ∈ l := by
  induction l with
  | nil => simp [sortDesc]
  | cons x xs ih => simp [sortDesc, mem_insertDesc, ih]

theorem pairwise_insertDesc {x : Eintrag} {l : List Eintrag}
    (hl : l.Pairwise (fun a b => b.id ≤ a.id)) :
    (insertDesc x l).Pairwise (fun a b => b.id ≤ a.id) := by
  induction l with
  | nil => simp [insertDesc]
  | cons y ys ih =>
    rcases List.pairwise_cons.mp hl with ⟨hy, hys⟩
    by_cases h : y.id ≤ x.id
    · rw [insertDesc, if_pos h]
      refine List.pairwise_cons.mpr ⟨?_, hl⟩
      intro b hb
      rcases List.mem_cons.mp hb with rfl | hb
      · exact h
      · exact le_trans (hy b hb) h
    · rw [insertDesc, if_neg h]
      refine List.pairwise_cons.mpr ⟨?_, ih hys⟩
      intro b hb
      rcases mem_insertDesc.mp hb with rfl | hb
      · exact le_of_not_le h
      · exact hy b hb

theorem pairwise_sortDesc (l : List Eintrag) :
    (sortDesc l).Pairwise (fun a b => b.id ≤ a.id) := by
  induction l with
  | nil => simp [sortDesc]
  | cons x xs ih => exact pairwise_insertDesc ih

theorem lastElem_mem : ∀ {l : List Eintrag} {x : Eintrag},
    lastElem? l = some x → x ∈ l := by
  intro l
  induction l with
  | nil => intro x h; simp [lastElem?] at h
  | cons a t ih =>
    intro x h
    cases t with
    | nil =>
      simp [lastElem?] at h
      simp [h]
    | cons b t2 =>
      rw [show lastElem? (a :: b :: t2) = lastElem? (b :: t2) from rfl] at h
      exact List.mem_cons_of_mem a (ih h)

theorem lastElem_min_of_pairwise : ∀ {l : List Eintrag} {x : Eintrag},
    l.Pairwise (fun a b => b.id ≤ a.id) → lastElem? l = some x →
    ∀ y ∈ l, x.id ≤ y.id := by
  intro l
  induction l with
  | nil => intro x _ h; simp [lastElem?] at h
  | cons a t ih =>
    intro x hp h y hy
    rcases List.pairwise_cons.mp hp with ⟨ha, ht⟩
    cases t with
    | nil =>
      simp [lastElem?] at h
      subst h
      rcases List.mem_singleton.mp hy with rfl
      exact le_refl _
    | cons b t2 =>
      rw [show lastElem? (a :: b :: t2) = lastElem? (b :: t2) from rfl] at h
      rcases List.mem_cons.mp hy with rfl | hy
      · exact ha x (lastElem_mem h)
      · exact ih ht h y hy

/-! ### Helper lemmas about the splitter -/

theorem createEntries_open_eq (ctr : Nat) (base : Eintrag) (h : base.ende = none) :
    createEntriesWithOptionalSplit ctr base = ({ entries := [base], split := none }, ctr) := by
  simp [createEntriesWithOptionalSplit, h]

theorem createEntries_fits_eq (ctr : Nat) (base : Eintrag) (e : String)
    (h : base.ende = some e)
    (h1 : timeToMinutes base.start ≤ sentinelEndMinutes e)
    (h2 : sentinelEndMinutes e ≤ 24 * 60) :
    createEntriesWithOptionalSplit ctr base = ({ entries := [base], split := none }, ctr) := by
  simp only [createEntriesWithOptionalSplit, h]
  rw [if_pos ⟨h1, h2⟩]

theorem createEntries_crossing_eq (ctr : Nat) (base : Eintrag) (e : String)
    (h : base.ende = some e)
    (hcross : sentinelEndMinutes e < timeToMinutes base.start) :
    createEntriesWithOptionalSplit ctr base =
      ({ entries :=
          [{ id := ctr + 1, date := base.date, start := base.start, ende := some "24:00" },
           { id := ctr + 2, date := base.date, start := "00:00", ende := some e }],
         split := some { id := toString (ctr + 1) ++ "-" ++ toString (ctr + 2),
                         firstId := ctr + 1, secondId := ctr + 2 } }, ctr + 2) := by
  simp only [createEntriesWithOptionalSplit, h]
  rw [if_neg (by omega)]
  rfl

/-! ### Claim theorems -/

/-- **C1.** `createEntriesWithOptionalSplit` (the Splitter): an open
candidate, or one whose sentinel-aware end minutes satisfy
`startMinutes ≤ endMinutes ≤ 1440`, comes back as exactly the input entry
with no `SplitEntry` (and the id counter untouched); a candidate with
`endMinutes < startMinutes` is replaced by two entries under two fresh
consecutive ids — `{date, start, "24:00"}` and `{date (not advanced),
"00:00", end}` — plus a `SplitEntry` `"<id1>-<id2>"` naming them.  The
function is pure in this embedding, so it cannot mutate its input. -/
theorem splitter_cases_spec (ctr : Nat) (base : Eintrag) :
    (base.ende = none →
      createEntriesWithOptionalSplit ctr base = ({ entries := [base], split := none }, ctr)) ∧
    (∀ e, base.ende = some e →
      timeToMinutes base.start ≤ sentinelEndMinutes e → sentinelEndMinutes e ≤ 24 * 60 →
      createEntriesWithOptionalSplit ctr base = ({ entries := [base], split := none }, ctr)) ∧
    (∀ e, base.ende = some e → sentinelEndMinutes e < timeToMinutes base.start →
      createEntriesWithOptionalSplit ctr base =
        ({ entries :=
            [{ id := ctr + 1, date := base.date, start := base.start, ende := some "24:00" },
             { id := ctr + 2, date := base.date, start := "00:00", ende := some e }],
           split := some { id := toString (ctr + 1) ++ "-" ++ toString (ctr + 2),
                           firstId := ctr + 1, secondId := ctr + 2 } }, ctr + 2)) :=
  ⟨createEntries_open_eq ctr base,
   fun e h h1 h2 => createEntries_fits_eq ctr base e h h1 h2,
   fun e h hcross => createEntries_crossing_eq ctr base e h hcross⟩

/-- Witness for C1 at the spec's own scenario: closing `23:50` at `00:10`. -/
theorem splitter_cases_spec_witness :
    sentinelEndMinutes "00:10" < timeToMinutes "23:50" ∧
    createEntriesWithOptionalSplit 100 ⟨5, "2024-01-01", "23:50", some "00:10"⟩ =
      ({ entries := [⟨101, "2024-01-01", "23:50", some "24:00"⟩,
                     ⟨102, "2024-01-01", "00:00", some "00:10"⟩],
         split := some ⟨"101-102", 101, 102⟩ }, 102) := by
  refine ⟨by decide, ?_⟩
  have h := (splitter_cases_spec 100 ⟨5, "2024-01-01", "23:50", some "00:10"⟩).2.2
    "00:10" rfl (by decide)
  exact h.trans (by decide)

/-- **C2.** For a midnight-crossing candidate the splitter's two halves
span `[startMinutes, 1440]` and `[0, endMinutes]`: they meet at the day
boundary (`"24:00"` ↦ 1440 and `"00:00"` ↦ 0), their lengths add up to the
logical span `(1440 - startMinutes) + endMinutes` of the candidate, and
`buildBaseFromSplit` applied to the pair reproduces the candidate's
`start` and `end` exactly, with the first half's date. -/
theorem split_merge_roundtrip (ctr ctr2 : Nat) (base : Eintrag) (e : String)
    (hEnde : base.ende = some e)
    (hStart : timeToMinutes base.start ≤ 1440)
    (hCross : sentinelEndMinutes e < timeToMinutes base.start) :
    ∃ first second,
      (createEntriesWithOptionalSplit ctr base).1.entries = [first, second] ∧
      first.start = base.start ∧ first.ende = some "24:00" ∧
      second.start = "00:00" ∧ second.ende = some e ∧
      sentinelEndMinutes "24:00" = 1440 ∧ timeToMinutes "00:00" = 0 ∧
      ((getDurationMinutes first.start first.ende : Int) +
        (getDurationMinutes second.start second.ende : Int) =
        (1440 - (timeToMinutes base.start : Int)) + (sentinelEndMinutes e : Int)) ∧
      (buildBaseFromSplit ctr2 first second).1.start = base.start ∧
      (buildBaseFromSplit ctr2 first second).1.ende = base.ende ∧
      (buildBaseFromSplit ctr2 first second).1.date = first.date := by
  refine ⟨{ id := ctr + 1, date := base.date, start := base.start, ende := some "24:00" },
          { id := ctr + 2, date := base.date, start := "00:00", ende := some e }, ?_⟩
  rw [createEntries_crossing_eq ctr base e hEnde hCross]
  refine ⟨rfl, rfl, rfl, rfl, rfl, by decide, by decide, ?_, rfl, hEnde.symm, rfl⟩
  have h1 : getDurationMinutes base.start (some "24:00") = 1440 - timeToMinutes base.start := rfl
  have h2 : getDurationMinutes "00:00" (some e) = sentinelEndMinutes e - timeToMinutes "00:00" := rfl
  have h3 : timeToMinutes "00:00" = 0 := by decide
  rw [h1, h2, h3, Nat.sub_zero, Nat.cast_sub hStart]
  push_cast
  ring

/-- Witness for C2: a `22:00`–`03:00` crossing candidate. -/
theorem split_merge_roundtrip_witness :
    (⟨9, "2024-03-05", "22:00", some "03:00"⟩ : Eintrag).ende = some "03:00" ∧
    timeToMinutes "22:00" ≤ 1440 ∧
    sentinelEndMinutes "03:00" < timeToMinutes "22:00" ∧
    ∃ first second,
      (createEntriesWithOptionalSplit 200 ⟨9, "2024-03-05", "22:00", some "03:00"⟩).1.entries
        = [first, second] ∧
      first.start = "22:00" ∧ first.ende = some "24:00" ∧
      second.start = "00:00" ∧ second.ende = some "03:00" ∧
      sentinelEndMinutes "24:00" = 1440 ∧ timeToMinutes "00:00" = 0 ∧
      ((getDurationMinutes first.start first.ende : Int) +
        (getDurationMinutes second.start second.ende : Int) =
        (1440 - (timeToMinutes "22:00" : Int)) + (sentinelEndMinutes "03:00" : Int)) ∧
      (buildBaseFromSplit 500 first second).1.start = "22:00" ∧
      (buildBaseFromSplit 500 first second).1.ende = some "03:00" ∧
      (buildBaseFromSplit 500 first second).1.date = first.date := by
  refine ⟨rfl, by decide, by decide, ?_⟩
  exact split_merge_roundtrip 200 500 ⟨9, "2024-03-05", "22:00", some "03:00"⟩ "03:00"
    rfl (by decide) (by decide)

/-- **C8.** `getDuration` renders `"-"` when the end is absent; otherwise
it takes `endMinutes - startMinutes` with `"24:00"` read as exactly 1440,
renders `"-"` when that difference is not positive, and otherwise renders
the elapsed time as zero-padded `HH:MM`; the spec's four sample values
hold. -/
theorem duration_spec :
    (∀ s, getDuration s none = "-") ∧
    (∀ s e, sentinelEndMinutes e ≤ timeToMinutes s → getDuration s (some e) = "-") ∧
    (∀ s e, timeToMinutes s < sentinelEndMinutes e →
      getDuration s (some e) =
        padStart2 ((sentinelEndMinutes e - timeToMinutes s) / 60) ++ ":" ++
          padStart2 ((sentinelEndMinutes e - timeToMinutes s) % 60)) ∧
    getDuration "09:00" (some "17:30") = "08:30" ∧
    getDuration "23:00" (some "24:00") = "01:00" ∧
    getDuration "09:00" none = "-" ∧
    getDuration "10:00" (some "09:00") = "-" := by
  refine ⟨fun s => rfl, ?_, ?_, by decide, by decide, rfl, by decide⟩
  · intro s e h
    have h0 : getDurationMinutes s (some e) = sentinelEndMinutes e - timeToMinutes s := rfl
    simp only [getDuration, h0]
    rw [if_pos (by omega)]
  · intro s e h
    have h0 : getDurationMinutes s (some e) = sentinelEndMinutes e - timeToMinutes s := rfl
    simp only [getDuration, h0]
    rw [if_neg (by omega)]

/-- Witness for C8 applying the positive-difference clause at 09:00-17:30. -/
theorem duration_spec_witness :
    timeToMinutes "09:00" < sentinelEndMinutes "17:30" ∧
    getDuration "09:00" (some "17:30") =
      padStart2 ((sentinelEndMinutes "17:30" - timeToMinutes "09:00") / 60) ++ ":" ++
        padStart2 ((sentinelEndMinutes "17:30" - timeToMinutes "09:00") % 60) :=
  ⟨by decide, duration_spec.2.2.1 "09:00" "17:30" (by decide)⟩

/-- **C9.** `minutesToTime` clamps its integer input to `[0, 1435]` and
rounds to the nearest multiple of 5 (for an integer input no tie can
occur, so "ties round up" is vacuous), rendering the result as `HH:MM`:
the rendered minute value is always 5-aligned and at most 1435 = 23:55,
so a raw rounding to 1440 never happens and the day never advances; the
spec's two clamp samples hold. -/
theorem minutesToTime_spec :
    (∀ n : Int, ∃ r : Nat,
      minutesToTime n = padStart2 (r / 60) ++ ":" ++ padStart2 (r % 60) ∧
      r % 5 = 0 ∧ r ≤ 1435 ∧
      (min n (23 * 60 + 55)).toNat ≤ r + 2 ∧ r ≤ (min n (23 * 60 + 55)).toNat + 2) ∧
    minutesToTime 1450 = "23:55" ∧ minutesToTime (-5) = "00:00" := by
  refine ⟨?_, by decide, by decide⟩
  intro n
  refine ⟨(2 * (min n (23 * 60 + 55)).toNat + 5) / 10 * 5, rfl, ?_, ?_, ?_, ?_⟩
  · omega
  · have hc : (min n (23 * 60 + 55)).toNat ≤ 1435 := by
      have h1 : min n (23 * 60 + 55) ≤ (1435 : Int) := by
        exact le_trans (min_le_right _ _) (by norm_num)
      omega
    omega
  · omega
  · omega

/-! ### Helper lemmas about filtered, re-sorted collections -/

theorem mem_update_filter_two {a b : Nat} {l : List Eintrag} {e2 : Eintrag}
    (h : e2 ∈ updateEintraege (l.filter (fun x => x.id != a && x.id != b))) :
    e2.id ≠ a ∧ e2.id ≠ b := by
  rw [updateEintraege, mem_sortDesc, List.mem_filter] at h
  simpa using h.2

theorem mem_update_filter_one {a : Nat} {l : List Eintrag} {e2 : Eintrag}
    (h : e2 ∈ updateEintraege (l.filter (fun x => x.id != a))) :
    e2.id ≠ a := by
  rw [updateEintraege, mem_sortDesc, List.mem_filter] at h
  simpa using h.2

theorem mem_splits_filter {pid : String} {l : List SplitEntry} {s : SplitEntry}
    (h : s ∈ l.filter (fun x => x.id != pid)) : s.id ≠ pid := by
  rw [List.mem_filter] at h
  simpa using h.2

/-- **C4.** `handleDeleteEntry`: when the id participates in a split pair,
both member entries and the pair record are removed in the same step — the
resulting collections contain neither member id and no record of the pair —
and when it participates in none, exactly the entries carrying that id are
removed and the split collection is untouched. -/
theorem deleteEntry_pair_atomic (st : AppState) (id : Nat) :
    (∀ p, st.splits.find? (fun s => s.firstId == id || s.secondId == id) = some p →
      handleDeleteEntry st id =
        { eintraege := updateEintraege (st.eintraege.filter
            (fun e2 => e2.id != p.firstId && e2.id != p.secondId)),
          splits := st.splits.filter (fun s => s.id != p.id),
          nextId := st.nextId } ∧
      (∀ e2 ∈ (handleDeleteEntry st id).eintraege, e2.id ≠ p.firstId ∧ e2.id ≠ p.secondId) ∧
      (∀ s ∈ (handleDeleteEntry st id).splits, s.id ≠ p.id) ∧
      p ∉ (handleDeleteEntry st id).splits) ∧
    (st.splits.find? (fun s => s.firstId == id || s.secondId == id) = none →
      handleDeleteEntry st id =
        { eintraege := updateEintraege (st.eintraege.filter (fun e2 => e2.id != id)),
          splits := st.splits, nextId := st.nextId } ∧
      (∀ e2 ∈ (handleDeleteEntry st id).eintraege, e2.id ≠ id) ∧
      (handleDeleteEntry st id).splits = st.splits) := by
  constructor
  · intro p hp
    have heq : handleDeleteEntry st id =
        { eintraege := updateEintraege (st.eintraege.filter
            (fun e2 => e2.id != p.firstId && e2.id != p.secondId)),
          splits := st.splits.filter (fun s => s.id != p.id),
          nextId := st.nextId } := by
      simp [handleDeleteEntry, hp]
    refine ⟨heq, ?_, ?_, ?_⟩
    · intro e2 he2
      rw [heq] at he2
      exact mem_update_filter_two he2
    · intro s hs
      rw [heq] at hs
      exact mem_splits_filter hs
    · intro hmem
      rw [heq] at hmem
      exact mem_splits_filter hmem rfl
  · intro hp
    have heq : handleDeleteEntry st id =
        { eintraege := updateEintraege (st.eintraege.filter (fun e2 => e2.id != id)),
          splits := st.splits, nextId := st.nextId } := by
      simp [handleDeleteEntry, hp]
    refine ⟨heq, ?_, by rw [heq]⟩
    intro e2 he2
    rw [heq] at he2
    exact mem_update_filter_one he2

/-- Witness for C4: deleting the second half (id 8) of pair `"7-8"` also
removes the first half and the pair; the unrelated entry 3 stays. -/
theorem deleteEntry_pair_atomic_witness :
    ([⟨"7-8", 7, 8⟩] : List SplitEntry).find?
        (fun s => s.firstId == 8 || s.secondId == 8) = some ⟨"7-8", 7, 8⟩ ∧
    handleDeleteEntry
        ⟨[⟨7, "d", "23:00", some "24:00"⟩, ⟨8, "d", "00:00", some "01:00"⟩,
          ⟨3, "d", "09:00", some "10:00"⟩], [⟨"7-8", 7, 8⟩], 10⟩ 8 =
      ⟨[⟨3, "d", "09:00", some "10:00"⟩], [], 10⟩ := by
  refine ⟨by decide, ?_⟩
  have h := ((deleteEntry_pair_atomic
    ⟨[⟨7, "d", "23:00", some "24:00"⟩, ⟨8, "d", "00:00", some "01:00"⟩,
      ⟨3, "d", "09:00", some "10:00"⟩], [⟨"7-8", 7, 8⟩], 10⟩ 8).1
    ⟨"7-8", 7, 8⟩ (by decide)).1
  exact h.trans (by decide)

/-- **C5, counterexample.** The claim says the AdjustedDate of the second
half of a pair is the *pair's first-entry* date plus two days.
`getAdjustedDateForEntry` actually shifts the second half's *own* stored
date: with first half dated `2024-01-01` and second half dated
`2024-01-05` under pair `"1-2"`, the function yields `2024-01-07`, not
the claimed `2024-01-03` (= first-entry date + 2 days). -/
theorem adjustedDate_counterexample :
    getAdjustedDateForEntry ⟨2, "2024-01-05", "00:00", some "00:30"⟩ [⟨"1-2", 1, 2⟩]
      = "2024-01-07" ∧
    addDaysStr (⟨1, "2024-01-01", "23:00", some "24:00"⟩ : Eintrag).date 2 = "2024-01-03" ∧
    getAdjustedDateForEntry ⟨2, "2024-01-05", "00:00", some "00:30"⟩ [⟨"1-2", 1, 2⟩]
      ≠ addDaysStr (⟨1, "2024-01-01", "23:00", some "24:00"⟩ : Eintrag).date 2 := by
  refine ⟨by decide, by decide, by decide⟩

/-- **C5, amended.** The AdjustedDate of an entry referenced by no
`SplitEntry` is its own date; for the first half of a pair it is its own
date; for the second half it is the *second half's own* stored date
shifted forward by exactly two calendar days — which coincides with the
pair's first-entry date + 2 days exactly when both halves carry the same
stored date, as every pair produced by the splitter does. -/
theorem adjustedDate_spec (entry : Eintrag) (splits : List SplitEntry) :
    (splits.find? (fun s => s.firstId == entry.id || s.secondId == entry.id) = none →
      getAdjustedDateForEntry entry splits = entry.date) ∧
    (∀ p, splits.find? (fun s => s.firstId == entry.id || s.secondId == entry.id) = some p →
      p.secondId = entry.id →
      getAdjustedDateForEntry entry splits = addDaysStr entry.date 2) ∧
    (∀ p, splits.find? (fun s => s.firstId == entry.id || s.secondId == entry.id) = some p →
      p.secondId ≠ entry.id →
      getAdjustedDateForEntry entry splits = entry.date) ∧
    (∀ p, ∀ first : Eintrag,
      splits.find? (fun s => s.firstId == entry.id || s.secondId == entry.id) = some p →
      p.secondId = entry.id → entry.date = first.date →
      getAdjustedDateForEntry entry splits = addDaysStr first.date 2) := by
  refine ⟨?_, ?_, ?_, ?_⟩
  · intro h
    simp [getAdjustedDateForEntry, h]
  · intro p hp hsec
    simp [getAdjustedDateForEntry, hp, hsec]
  · intro p hp hsec
    simp [getAdjustedDateForEntry, hp, hsec]
  · intro p first hp hsec hdate
    rw [← hdate]
    simp [getAdjustedDateForEntry, hp, hsec]

/-- Witness for C5 (amended), at the split the splitter itself produces:
both halves dated `2024-01-01`, so the second half groups under
`2024-01-03`. -/
theorem adjustedDate_spec_witness :
    getAdjustedDateForEntry ⟨102, "2024-01-01", "00:00", some "00:10"⟩ [⟨"101-102", 101, 102⟩]
      = addDaysStr "2024-01-01" 2 ∧
    addDaysStr "2024-01-01" 2 = "2024-01-03" := by
  refine ⟨?_, by decide⟩
  exact (adjustedDate_spec ⟨102, "2024-01-01", "00:00", some "00:10"⟩
    [⟨"101-102", 101, 102⟩]).2.1 ⟨"101-102", 101, 102⟩ (by decide) rfl

/-- Claim-side definition for C6, following the spec's words rather than
the source: an `addFixedEntry(date, start, end)` that appends a closed
entry with the *given* times and is still subject to Splitter semantics
(midnight-crossing input stored as two linked records).  It exists only to
be compared against the source's `handleAddFixedNoonEntry`. -/
def addFixedEntryClaimed (st : AppState) (date start ende : String) : AppState :=
  let g := generateId st.nextId
  let rc := createEntriesWithOptionalSplit g.2 { id := g.1, date := date, start := start, ende := some ende }
  { eintraege := updateEintraege (st.eintraege ++ rc.1.entries),
    splits := st.splits ++ rc.1.split.toList, nextId := rc.2 }

/-- **C6, counterexample.** The source's fixed-entry operation
(`handleAddFixedNoonEntry`) takes no start/end at all: from the empty
state it appends the single hardcoded `12:00`–`12:00` record and leaves
the split collection empty, whereas the operation the claim describes,
given the crossing times `23:00`–`00:30`, would have to produce a
`SplitEntry`.  The code's operation can never produce one. -/
theorem addFixedEntry_counterexample :
    handleAddFixedNoonEntry ⟨[], [], 0⟩ "2024-01-01" =
      ⟨[⟨1, "2024-01-01", "12:00", some "12:00"⟩], [], 1⟩ ∧
    (handleAddFixedNoonEntry ⟨[], [], 0⟩ "2024-01-01").splits = [] ∧
    (addFixedEntryClaimed ⟨[], [], 0⟩ "2024-01-01" "23:00" "00:30").splits =
      [⟨"2-3", 2, 3⟩] ∧
    (handleAddFixedNoonEntry ⟨[], [], 0⟩ "2024-01-01").splits ≠
      (addFixedEntryClaimed ⟨[], [], 0⟩ "2024-01-01" "23:00" "00:30").splits := by
  refine ⟨by decide, by decide, by decide, by decide⟩

/-- **C6, amended.** `handleAddFixedNoonEntry(date)` appends one closed
entry with hardcoded times `12:00`–`12:00` directly, without the
open/close flow and without invoking the splitter, leaving the split
collection unchanged; because `12:00`–`12:00` never crosses midnight this
coincides with Splitter semantics — the splitter applied to the appended
entry would return it unchanged with no `SplitEntry`, and indeed the
operation agrees with the splitter-routed `addFixedEntryClaimed` at these
hardcoded times. -/
theorem addFixedEntry_spec (st : AppState) (date : String) :
    handleAddFixedNoonEntry st date =
      { eintraege := updateEintraege
          (st.eintraege ++ [⟨st.nextId + 1, date, "12:00", some "12:00"⟩]),
        splits := st.splits, nextId := st.nextId + 1 } ∧
    (handleAddFixedNoonEntry st date).splits = st.splits ∧
    (∀ c : Nat, createEntriesWithOptionalSplit c ⟨st.nextId + 1, date, "12:00", some "12:00"⟩ =
      ({ entries := [⟨st.nextId + 1, date, "12:00", some "12:00"⟩], split := none }, c)) ∧
    handleAddFixedNoonEntry st date = addFixedEntryClaimed st date "12:00" "12:00" := by
  have h12a : timeToMinutes "12:00" ≤ sentinelEndMinutes "12:00" := by decide
  have h12b : sentinelEndMinutes "12:00" ≤ 24 * 60 := by decide
  have hfits : ∀ c : Nat,
      createEntriesWithOptionalSplit c ⟨st.nextId + 1, date, "12:00", some "12:00"⟩ =
        ({ entries := [⟨st.nextId + 1, date, "12:00", some "12:00"⟩], split := none }, c) := by
    intro c
    exact createEntries_fits_eq c ⟨st.nextId + 1, date, "12:00", some "12:00"⟩ "12:00"
      rfl h12a h12b
  refine ⟨rfl, rfl, hfits, ?_⟩
  simp only [addFixedEntryClaimed, generateId, hfits]
  simp [handleAddFixedNoonEntry, generateId]

/-- **C7.** `handleSaveEdit` leaves the whole state (entries, splits, id
counter) unchanged in every blocked case: editing `start` with an empty
value, editing `ende` with an empty value (validation fires before any
mutation), and an edit whose target id matches no entry (silent no-op). -/
theorem editField_blocked_noop (st : AppState) :
    (∀ i : Nat, ∀ vE : String, handleSaveEdit st (some i) EditMode.start "" vE = st) ∧
    (∀ i : Nat, ∀ vS : String, handleSaveEdit st (some i) EditMode.ende vS "" = st) ∧
    (∀ i : Nat, ∀ mode : EditMode, ∀ vS vE : String,
      st.eintraege.find? (fun e2 => e2.id == i) = none →
      handleSaveEdit st (some i) mode vS vE = st) := by
  refine ⟨?_, ?_, ?_⟩
  · intro i vE
    by_cases h0 : i = 0
    · simp [handleSaveEdit, h0]
    · simp [handleSaveEdit, h0]
  · intro i vS
    by_cases h0 : i = 0
    · simp [handleSaveEdit, h0]
    · simp [handleSaveEdit, h0]
  · intro i mode vS vE hfind
    by_cases h0 : i = 0
    · simp [handleSaveEdit, h0]
    · by_cases h1 : mode = EditMode.start ∧ vS = ""
      · simp [handleSaveEdit, h0, h1]
      · by_cases h2 : mode = EditMode.ende ∧ vE = ""
        · simp [handleSaveEdit, h0, h1, h2]
        · simp [handleSaveEdit, h0, h1, h2, hfind]

/-- Witness for C7: an edit targeting the absent id 99 in a one-entry
state changes nothing. -/
theorem editField_blocked_noop_witness :
    ([⟨4, "2024-01-01", "09:00", some "10:00"⟩] : List Eintrag).find?
        (fun e2 => e2.id == 99) = none ∧
    handleSaveEdit ⟨[⟨4, "2024-01-01", "09:00", some "10:00"⟩], [], 7⟩
        (some 99) EditMode.ende "09:00" "11:00" =
      ⟨[⟨4, "2024-01-01", "09:00", some "10:00"⟩], [], 7⟩ :=
  ⟨by decide,
   (editField_blocked_noop ⟨[⟨4, "2024-01-01", "09:00", some "10:00"⟩], [], 7⟩).2.2
     99 EditMode.ende "09:00" "11:00" (by decide)⟩

/-- **C10.** Every replacement of the entry collection goes through
`updateEintraege` (as does the initial load), which always yields a list
sorted by id in descending order; on such a list the open-entry lookup
`getOpenEntryInfo` (used by `handleAddEnde` to pick its target) returns
the *last* open entry in collection order, whose id is minimal among all
open entries — and since `generateId` is strictly increasing, the minimal
id is the oldest-assigned one, so closing targets the oldest open entry;
finally, `handleAddEnde` indeed closes exactly the entry so selected. -/
theorem sorted_open_lookup_spec :
    (∀ l : List Eintrag, (updateEintraege l).Pairwise (fun a b => b.id ≤ a.id)) ∧
    (∀ l : List Eintrag, l.Pairwise (fun a b => b.id ≤ a.id) →
      ∀ x : Eintrag, lastElem? (l.filter (fun e2 => e2.ende.isNone)) = some x →
        getOpenEntryInfo l = { hasOpen := true, id := some x.id } ∧
        ∀ e2 ∈ l, e2.ende = none → x.id ≤ e2.id) ∧
    (∀ c : Nat, c < (generateId c).1 ∧ (generateId c).2 = (generateId c).1) ∧
    (∀ st : AppState, ∀ t : String, ∀ x openEntry : Eintrag,
      lastElem? (st.eintraege.filter (fun e2 => e2.ende.isNone)) = some x →
      st.eintraege.find? (fun e2 => e2.id == x.id) = some openEntry →
      handleAddEnde st t =
        { eintraege := updateEintraege
            (st.eintraege.filter (fun e2 => e2.id != openEntry.id) ++
             (createEntriesWithOptionalSplit st.nextId { openEntry with ende := some t }).1.entries),
          splits := st.splits.filter
              (fun s => s.firstId != openEntry.id && s.secondId != openEntry.id) ++
            (createEntriesWithOptionalSplit st.nextId { openEntry with ende := some t }).1.split.toList,
          nextId := (createEntriesWithOptionalSplit st.nextId { openEntry with ende := some t }).2 }) := by
  refine ⟨?_, ?_, fun c => ⟨Nat.lt_succ_self c, rfl⟩, ?_⟩
  · intro l
    exact pairwise_sortDesc l
  · intro l hp x hx
    constructor
    · simp only [getOpenEntryInfo, hx]
    · intro e2 he2 hopen
      have hpf : (l.filter (fun e2 => e2.ende.isNone)).Pairwise (fun a b => b.id ≤ a.id) :=
        hp.sublist (List.filter_sublist l)
      refine lastElem_min_of_pairwise hpf hx e2 ?_
      rw [List.mem_filter]
      exact ⟨he2, by simp [hopen]⟩
  · intro st t x openEntry hx hfind
    have hinfo : getOpenEntryInfo st.eintraege = { hasOpen := true, id := some x.id } := by
      simp only [getOpenEntryInfo, hx]
    simp only [handleAddEnde, hinfo, hfind]
    rfl

/-- Witness for C10: in a descending-sorted collection with two open
entries (ids 30 and 10), the lookup selects the last one, id 10 — the
smallest, i.e. oldest-assigned, open id. -/
theorem sorted_open_lookup_spec_witness :
    ([⟨30, "d", "10:00", none⟩, ⟨20, "d", "09:00", some "09:30"⟩,
        ⟨10, "d", "08:00", none⟩] : List Eintrag).Pairwise (fun a b => b.id ≤ a.id) ∧
    lastElem? (([⟨30, "d", "10:00", none⟩, ⟨20, "d", "09:00", some "09:30"⟩,
        ⟨10, "d", "08:00", none⟩] : List Eintrag).filter (fun e2 => e2.ende.isNone)) =
      some ⟨10, "d", "08:00", none⟩ ∧
    getOpenEntryInfo [⟨30, "d", "10:00", none⟩, ⟨20, "d", "09:00", some "09:30"⟩,
        ⟨10, "d", "08:00", none⟩] = { hasOpen := true, id := some 10 } := by
  refine ⟨?_, by decide, ?_⟩
  · decide
  · exact (sorted_open_lookup_spec.2.1
      [⟨30, "d", "10:00", none⟩, ⟨20, "d", "09:00", some "09:30"⟩, ⟨10, "d", "08:00", none⟩]
      (by decide) ⟨10, "d", "08:00", none⟩ (by decide)).1

/-- Dispatch lemma: with a valid value, a found target, a found pair and
both halves present, `handleSaveEdit` runs its merged-pair branch. -/
theorem handleSaveEdit_merged_dispatch (st : AppState) (eid : Nat) (mode : EditMode)
    (vS vE : String) (original first second : Eintrag) (p : SplitEntry)
    (hid : ¬eid = 0)
    (hvS : ¬(mode = EditMode.start ∧ vS = ""))
    (hvE : ¬(mode = EditMode.ende ∧ vE = ""))
    (hFind : st.eintraege.find? (fun e2 => e2.id == eid) = some original)
    (hPair : st.splits.find? (fun s => s.firstId == original.id || s.secondId == original.id)
      = some p)
    (hFirst : st.eintraege.find? (fun e2 => e2.id == p.firstId) = some first)
    (hSecond : st.eintraege.find? (fun e2 => e2.id == p.secondId) = some second) :
    handleSaveEdit st (some eid) mode vS vE =
      saveEditMergedBranch st p first second mode vS vE := by
  simp only [handleSaveEdit, hFind, hPair, hFirst, hSecond, if_neg hid, if_neg hvS, if_neg hvE]

/-- **C3.** When both halves of a split pair are present, `handleSaveEdit`
on either half's id removes *both* original halves and the old pair,
merges the halves into a base (first half's date and start, second half's
end) under a fresh id, applies the edited field, re-runs the splitter, and
appends its output entries and pair (if any) — both original ids are
discarded whichever half carried the edited field.  In particular, editing
`start` to a value that no longer crosses midnight dissolves the pair: one
entry remains from it, with the edited start and the pair's original
second-half end, referenced by no remaining `SplitEntry`. -/
theorem editField_merged_pair_spec (st : AppState) (eid : Nat) (vS vE : String)
    (original first second : Eintrag) (p : SplitEntry)
    (hid : ¬eid = 0)
    (hFind : st.eintraege.find? (fun e2 => e2.id == eid) = some original)
    (hPair : st.splits.find? (fun s => s.firstId == original.id || s.secondId == original.id)
      = some p)
    (hFirst : st.eintraege.find? (fun e2 => e2.id == p.firstId) = some first)
    (hSecond : st.eintraege.find? (fun e2 => e2.id == p.secondId) = some second) :
    (vS ≠ "" → handleSaveEdit st (some eid) EditMode.start vS vE =
      { eintraege := updateEintraege
          (st.eintraege.filter (fun e2 => e2.id != p.firstId && e2.id != p.secondId) ++
           (createEntriesWithOptionalSplit (st.nextId + 1)
             ⟨st.nextId + 1, first.date, vS, second.ende⟩).1.entries),
        splits := st.splits.filter (fun s => s.id != p.id) ++
           (createEntriesWithOptionalSplit (st.nextId + 1)
             ⟨st.nextId + 1, first.date, vS, second.ende⟩).1.split.toList,
        nextId := (createEntriesWithOptionalSplit (st.nextId + 1)
             ⟨st.nextId + 1, first.date, vS, second.ende⟩).2 }) ∧
    (vE ≠ "" → handleSaveEdit st (some eid) EditMode.ende vS vE =
      { eintraege := updateEintraege
          (st.eintraege.filter (fun e2 => e2.id != p.firstId && e2.id != p.secondId) ++
           (createEntriesWithOptionalSplit (st.nextId + 1)
             ⟨st.nextId + 1, first.date, first.start, some vE⟩).1.entries),
        splits := st.splits.filter (fun s => s.id != p.id) ++
           (createEntriesWithOptionalSplit (st.nextId + 1)
             ⟨st.nextId + 1, first.date, first.start, some vE⟩).1.split.toList,
        nextId := (createEntriesWithOptionalSplit (st.nextId + 1)
             ⟨st.nextId + 1, first.date, first.start, some vE⟩).2 }) ∧
    (∀ e3 : String, vS ≠ "" → second.ende = some e3 →
      timeToMinutes vS ≤ sentinelEndMinutes e3 → sentinelEndMinutes e3 ≤ 24 * 60 →
      (∀ q ∈ st.splits, q.firstId ≤ st.nextId ∧ q.secondId ≤ st.nextId) →
      handleSaveEdit st (some eid) EditMode.start vS vE =
        { eintraege := updateEintraege
            (st.eintraege.filter (fun e2 => e2.id != p.firstId && e2.id != p.secondId) ++
             [⟨st.nextId + 1, first.date, vS, second.ende⟩]),
          splits := st.splits.filter (fun s => s.id != p.id),
          nextId := st.nextId + 1 } ∧
        ∀ q ∈ (handleSaveEdit st (some eid) EditMode.start vS vE).splits,
          q.firstId ≠ st.nextId + 1 ∧ q.secondId ≠ st.nextId + 1) := by
  have hstart : ∀ vS2 : String, vS2 ≠ "" →
      handleSaveEdit st (some eid) EditMode.start vS2 vE =
        saveEditMergedBranch st p first second EditMode.start vS2 vE := by
    intro vS2 hv
    exact handleSaveEdit_merged_dispatch st eid EditMode.start vS2 vE original first second p
      hid (fun h => hv h.2) (fun h => EditMode.noConfusion h.1) hFind hPair hFirst hSecond
  refine ⟨?_, ?_, ?_⟩
  · intro hv
    rw [hstart vS hv]
    rfl
  · intro hv
    rw [handleSaveEdit_merged_dispatch st eid EditMode.ende vS vE original first second p
      hid (fun h => EditMode.noConfusion h.1) (fun h => hv h.2) hFind hPair hFirst hSecond]
    rfl
  · intro e3 hv hsec h1 h2 hbound
    have hbase : (⟨st.nextId + 1, first.date, vS, second.ende⟩ : Eintrag).ende = some e3 := hsec
    have hfits := createEntries_fits_eq (st.nextId + 1)
      ⟨st.nextId + 1, first.date, vS, second.ende⟩ e3 hbase h1 h2
    have heq : handleSaveEdit st (some eid) EditMode.start vS vE =
        { eintraege := updateEintraege
            (st.eintraege.filter (fun e2 => e2.id != p.firstId && e2.id != p.secondId) ++
             [⟨st.nextId + 1, first.date, vS, second.ende⟩]),
          splits := st.splits.filter (fun s => s.id != p.id),
          nextId := st.nextId + 1 } := by
      rw [hstart vS hv]
      simp [saveEditMergedBranch, buildBaseFromSplit, generateId, applyEdit, hfits]
    refine ⟨heq, ?_⟩
    intro q hq
    rw [heq] at hq
    have hq2 : q ∈ st.splits := List.mem_of_mem_filter hq
    have := hbound q hq2
    omega

/-- Witness for C3, the spec's scenario: editing the first half (id 11) of
pair `"11-12"` to start `00:05`, which no longer crosses midnight, leaves
one unlinked entry `00:05`–`00:10` under the fresh id 21. -/
theorem editField_merged_pair_spec_witness :
    handleSaveEdit
        ⟨[⟨12, "2024-01-01", "00:00", some "00:10"⟩, ⟨11, "2024-01-01", "23:50", some "24:00"⟩],
         [⟨"11-12", 11, 12⟩], 20⟩
        (some 11) EditMode.start "00:05" "" =
      ⟨[⟨21, "2024-01-01", "00:05", some "00:10"⟩], [], 21⟩ := by
  have h := ((editField_merged_pair_spec
    ⟨[⟨12, "2024-01-01", "00:00", some "00:10"⟩, ⟨11, "2024-01-01", "23:50", some "24:00"⟩],
     [⟨"11-12", 11, 12⟩], 20⟩
    11 "00:05" ""
    ⟨11, "2024-01-01", "23:50", some "24:00"⟩
    ⟨11, "2024-01-01", "23:50", some "24:00"⟩
    ⟨12, "2024-01-01", "00:00", some "00:10"⟩
    ⟨"11-12", 11, 12⟩
    (by decide) (by decide) (by decide) (by decide) (by decide)).2.2
    "00:10" (by decide) rfl (by decide) (by decide) (by decide)).1
  exact h.trans (by decide)
